import Mathlib

/-!
Shallow embedding of the transaction-processing core of the `exchange`
Rust crate (files `amount.rs`, `client.rs`, `transaction.rs`,
`error.rs`, `registry.rs`, `exchange.rs`), with proofs of the
specification claims about it.

Modelling choices:
* `Amount` (a `rust_decimal::Decimal` in the source) is modelled as
  `Int`: the spec describes amounts as exact decimal quantities
  supporting addition, subtraction and comparison with no rounding
  drift during internal accumulation; rounding to four places happens
  only at presentation time, outside the core.
* `ClientID` (`u16`) and `TransactionID` (`u32`) are modelled as `Nat`;
  the core performs no arithmetic on identifiers, only equality tests
  and map lookups, so their width never matters.
* The two `HashMap`s are modelled as functions to `Option` values.
* Methods taking `&mut self` become state-passing functions; a method
  returning `Result<T, E>` becomes a function returning the updated
  state together with an `Except E T`.  In particular `handle` returns
  the post-state even on error, because the Rust code mutates `self`
  before some of its error returns.
-/

abbrev Amount := Int

abbrev ClientID := Nat

abbrev TransactionID := Nat

/-- From `client.rs`: the state of a single client. -/
structure Client where
  id : ClientID
  available : Amount
  held : Amount
  total : Amount
  locked : Bool
deriving DecidableEq, Repr

/-- From `Client::new`: a fresh client has zero balances and is unlocked. -/
def Client.new (id : ClientID) : Client :=
  { id := id, available := 0, held := 0, total := 0, locked := false }

/-- From `transaction.rs`: the five kinds of transactions. -/
inductive TransactionType where
  | deposit (amount : Amount)
  | withdraw (amount : Amount)
  | dispute
  | resolve
  | chargeback
deriving DecidableEq, Repr

/-- From `transaction.rs`: a transaction record. -/
structure Transaction where
  tx : TransactionID
  client : ClientID
  ttype : TransactionType
deriving DecidableEq, Repr

/-- From `Transaction::amount`: the amount of a transaction, if any. -/
def Transaction.amount (t : Transaction) : Option Amount :=
  match t.ttype with
  | .deposit amount => some amount
  | .withdraw amount => some amount
  | _ => none

/-- From `error.rs`: the error taxonomy of the exchange. -/
inductive ExchangeError where
  | invalidAmount (expected got : String)
  | invalidTransaction (t : Transaction) (msg : String)
  | locked (c : Client)
deriving DecidableEq, Repr

deriving instance DecidableEq for Except

/-- From `registry.rs`: the client registry, a map from id to client. -/
structure Registry where
  clients : ClientID → Option Client

/-- Point update of the registry map: models a `HashMap` insertion,
either through `entry(..).or_insert(..)` or through a write to the
`&mut Client` that `get_mut` hands back. -/
def Registry.set (r : Registry) (id : ClientID) (c : Client) : Registry :=
  ⟨fun i => if i = id then some c else r.clients i⟩

/-- From `Registry::new`. -/
def Registry.new : Registry := ⟨fun _ => none⟩

/-- From `Registry::get_mut`: fetch-or-create the client with the
given id (`entry(*id).or_insert(Client::new(*id))`), then fail with
`Locked` if that client is locked.  Returns the registry after the
`or_insert` together with the result; on success the caller holds the
client value to mutate and write back via `Registry.set`. -/
def Registry.getMut (r : Registry) (id : ClientID) :
    Registry × Except ExchangeError Client :=
  let c := (r.clients id).getD (Client.new id)
  let r' := r.set id c
  if c.locked then (r', .error (.locked c)) else (r', .ok c)

/-- From `exchange.rs`: the registry plus the datastore of transactions. -/
structure Exchange where
  registry : Registry
  transactions : TransactionID → Option Transaction

/-- From `Exchange::new`. -/
def Exchange.new : Exchange :=
  { registry := Registry.new, transactions := fun _ => none }

/-- Models `self.transactions.insert(transaction.tx, transaction)`. -/
def Exchange.insertTx (e : Exchange) (t : Transaction) : Exchange :=
  { e with
    transactions := fun i => if i = t.tx then some t else e.transactions i }

/-- From `Exchange::assert_id_available`. -/
def Exchange.assertIdAvailable (e : Exchange) (t : Transaction) :
    Except ExchangeError Unit :=
  if (e.transactions t.tx).isSome then
    .error (.invalidTransaction t "The transaction ID already exists")
  else
    .ok ()

/-- From `Exchange::get_tx`. -/
def Exchange.getTx (e : Exchange) (t : Transaction) :
    Except ExchangeError Transaction :=
  match e.transactions t.tx with
  | some prevTx => .ok prevTx
  | none => .error (.invalidTransaction t "The given transaction ID DOES NOT exist")

/-- From `Exchange::handle`, translated branch by branch (the
`Deposit(amount) | Withdraw(amount)` or-pattern of the `Dispute` arm is
expanded into two identical arms).  The Rust method mutates `self` and
returns `Result<(), ExchangeError>`; here it returns the result
together with the post-state.  Note that the Deposit and Withdraw
branches insert the transaction into the log *before* the
locked-client and insufficient-funds checks, exactly as the source
does. -/
def Exchange.handle (e : Exchange) (t : Transaction) :
    Except ExchangeError Unit × Exchange :=
  match t.ttype with
  | .deposit amount =>
    match e.assertIdAvailable t with
    | .error err => (.error err, e)
    | .ok _ =>
      let e1 := e.insertTx t
      match e1.registry.getMut t.client with
      | (r', .error err) => (.error err, { e1 with registry := r' })
      | (r', .ok c) =>
        let c' := { c with total := c.total + amount,
                           available := c.available + amount }
        (.ok (), { e1 with registry := r'.set t.client c' })
  | .withdraw amount =>
    match e.assertIdAvailable t with
    | .error err => (.error err, e)
    | .ok _ =>
      let e1 := e.insertTx t
      match e1.registry.getMut t.client with
      | (r', .error err) => (.error err, { e1 with registry := r' })
      | (r', .ok c) =>
        if c.available < amount then
          (.error (.invalidTransaction t
            ("Insufficient funds available for transaction. Available: "
              ++ toString c.available ++ ", required: " ++ toString amount)),
           { e1 with registry := r' })
        else
          let c' := { c with total := c.total - amount,
                             available := c.available - amount }
          (.ok (), { e1 with registry := r'.set t.client c' })
  | .dispute =>
    match e.getTx t with
    | .error err => (.error err, e)
    | .ok prevTx =>
      match e.registry.getMut t.client with
      | (r', .error err) => (.error err, { e with registry := r' })
      | (r', .ok c) =>
        match prevTx.ttype with
        | .deposit amount =>
          let c' := { c with available := c.available - amount,
                             held := c.held + amount }
          (.ok (), { e with registry := r'.set t.client c' })
        | .withdraw amount =>
          let c' := { c with available := c.available - amount,
                             held := c.held + amount }
          (.ok (), { e with registry := r'.set t.client c' })
        | _ =>
          (.error (.invalidTransaction t
            "Given transaction was not a deposit or withdrawal and thus has no amount"),
           { e with registry := r' })
  | .resolve =>
    match e.getTx t with
    | .error err => (.error err, e)
    | .ok prevTx =>
      match prevTx.amount with
      | some amount =>
        match e.registry.getMut t.client with
        | (r', .error err) => (.error err, { e with registry := r' })
        | (r', .ok c) =>
          let c' := { c with held := c.held - amount,
                             available := c.available + amount }
          (.ok (), { e with registry := r'.set t.client c' })
      | none =>
        (.error (.invalidTransaction t "No amount associated with transaction"), e)
  | .chargeback =>
    match e.getTx t with
    | .error err => (.error err, e)
    | .ok prevTx =>
      match prevTx.amount with
      | some amount =>
        match e.registry.getMut t.client with
        | (r', .error err) => (.error err, { e with registry := r' })
        | (r', .ok c) =>
          let c' := { c with held := c.held - amount,
                             total := c.total - amount,
                             locked := true }
          (.ok (), { e with registry := r'.set t.client c' })
      | none =>
        (.error (.invalidTransaction t "No amount associated with transaction"), e)

/-- Feed a list of transactions into the exchange in order, keeping
the post-state of every call (also the rejected ones), as the CLI
driver does with its input stream. -/
def Exchange.handleAll (e : Exchange) (ts : List Transaction) : Exchange :=
  ts.foldl (fun acc t => (acc.handle t).2) e

/-- Concrete run used below: a deposit of 7 for client 1. -/
def c6Run1 : Exchange := (Exchange.new.handle ⟨1, 1, .deposit 7⟩).2

/-- Concrete run used below: then a dispute of that deposit. -/
def c6Run2 : Exchange := (c6Run1.handle ⟨1, 1, .dispute⟩).2

/-- Concrete run used below: then its resolve. -/
def c6Run3 : Exchange := (c6Run2.handle ⟨1, 1, .resolve⟩).2

/-- Concrete run used below: a deposit of 10 for client 1. -/
def c10Run : Exchange := (Exchange.new.handle ⟨1, 1, .deposit 10⟩).2

/-- The conservation invariant of a single client: `total` is exactly
`available` plus `held`. -/
def ClientInv (c : Client) : Prop := c.total = c.available + c.held

/-- The conservation invariant of a whole registry. -/
def RegistryInv (r : Registry) : Prop :=
  ∀ id c, r.clients id = some c → ClientInv c

theorem clientInv_new (id : ClientID) : ClientInv (Client.new id) := by
  simp [ClientInv, Client.new]

theorem registry_set_clients (r : Registry) (id : ClientID) (c : Client) (j : ClientID) :
    (r.set id c).clients j = if j = id then some c else r.clients j := rfl

theorem registryInv_set {r : Registry} {id : ClientID} {c : Client}
    (hr : RegistryInv r) (hc : ClientInv c) : RegistryInv (r.set id c) := by
  intro j c' hj
  rw [registry_set_clients] at hj
  split at hj
  · cases hj; exact hc
  · exact hr j c' hj

theorem getMut_fst (r : Registry) (id : ClientID) :
    (r.getMut id).1 = r.set id ((r.clients id).getD (Client.new id)) := by
  simp only [Registry.getMut]
  split <;> rfl

theorem getMut_eq_ok {r : Registry} {id : ClientID} {r' : Registry} {c : Client}
    (h : r.getMut id = (r', .ok c)) :
    c = (r.clients id).getD (Client.new id) ∧ c.locked = false ∧
      r' = r.set id ((r.clients id).getD (Client.new id)) := by
  simp only [Registry.getMut] at h
  split at h
  · cases h
  · next hl =>
    cases h
    exact ⟨rfl, by simpa using hl, rfl⟩

theorem clientInv_getD {r : Registry} {id : ClientID} (hr : RegistryInv r) :
    ClientInv ((r.clients id).getD (Client.new id)) := by
  cases h : r.clients id with
  | none => exact clientInv_new id
  | some c => exact hr id c h

theorem insertTx_registry (e : Exchange) (t : Transaction) :
    (e.insertTx t).registry = e.registry := rfl

theorem registryInv_handle {e : Exchange} (t : Transaction) (h : RegistryInv e.registry) :
    RegistryInv ((e.handle t).2).registry := by
  obtain ⟨tid, cid, ty⟩ := t
  have hgd : ClientInv (((e.registry.clients cid)).getD (Client.new cid)) := clientInv_getD h
  have hset : RegistryInv (e.registry.set cid ((e.registry.clients cid).getD (Client.new cid))) :=
    registryInv_set h hgd
  cases ty <;> unfold Exchange.handle <;> dsimp only <;>
    try simp only [insertTx_registry]
  case deposit amount =>
    split
    · exact h
    · split
      next r' err heq =>
        have h1 : r' = _ := (congrArg Prod.fst heq).symm.trans (getMut_fst _ _)
        subst h1
        exact hset
      next r' c heq =>
        obtain ⟨hc, hl, hr'⟩ := getMut_eq_ok heq
        subst hr'
        refine registryInv_set hset ?_
        have := hgd
        rw [← hc] at this
        unfold ClientInv at this ⊢
        simp only
        linarith
  case withdraw amount =>
    split
    · exact h
    · split
      next r' err heq =>
        have h1 : r' = _ := (congrArg Prod.fst heq).symm.trans (getMut_fst _ _)
        subst h1
        exact hset
      next r' c heq =>
        obtain ⟨hc, hl, hr'⟩ := getMut_eq_ok heq
        subst hr'
        split
        · exact hset
        · refine registryInv_set hset ?_
          have := hgd
          rw [← hc] at this
          unfold ClientInv at this ⊢
          simp only
          linarith
  case dispute =>
    split
    · exact h
    next prevTx heq0 =>
      split
      next r' err heq =>
        have h1 : r' = _ := (congrArg Prod.fst heq).symm.trans (getMut_fst _ _)
        subst h1
        exact hset
      next r' c heq =>
        obtain ⟨hc, hl, hr'⟩ := getMut_eq_ok heq
        subst hr'
        split
        · refine registryInv_set hset ?_
          have := hgd
          rw [← hc] at this
          unfold ClientInv at this ⊢
          simp only
          linarith
        · refine registryInv_set hset ?_
          have := hgd
          rw [← hc] at this
          unfold ClientInv at this ⊢
          simp only
          linarith
        · exact hset
  case resolve =>
    split
    · exact h
    next prevTx heq0 =>
      split
      next amount heqa =>
        split
        next r' err heq =>
          have h1 : r' = _ := (congrArg Prod.fst heq).symm.trans (getMut_fst _ _)
          subst h1
          exact hset
        next r' c heq =>
          obtain ⟨hc, hl, hr'⟩ := getMut_eq_ok heq
          subst hr'
          refine registryInv_set hset ?_
          have := hgd
          rw [← hc] at this
          unfold ClientInv at this ⊢
          simp only
          linarith
      next => exact h
  case chargeback =>
    split
    · exact h
    next prevTx heq0 =>
      split
      next amount heqa =>
        split
        next r' err heq =>
          have h1 : r' = _ := (congrArg Prod.fst heq).symm.trans (getMut_fst _ _)
          subst h1
          exact hset
        next r' c heq =>
          obtain ⟨hc, hl, hr'⟩ := getMut_eq_ok heq
          subst hr'
          refine registryInv_set hset ?_
          have := hgd
          rw [← hc] at this
          unfold ClientInv at this ⊢
          simp only
          linarith
      next => exact h

theorem registryInv_handleAll {e : Exchange} (ts : List Transaction)
    (h : RegistryInv e.registry) : RegistryInv (e.handleAll ts).registry := by
  induction ts generalizing e with
  | nil => exact h
  | cons t ts ih => exact ih (registryInv_handle t h)

theorem set_clients_self (r : Registry) (id : ClientID) (c : Client) :
    (r.set id c).clients id = some c := by
  rw [registry_set_clients]
  simp

theorem set_clients_ne (r : Registry) {id j : ClientID} {c : Client} (h : j ≠ id) :
    (r.set id c).clients j = r.clients j := by
  rw [registry_set_clients]
  simp [h]

theorem getMut_fst_clients (r : Registry) (cid j : ClientID) {c : Client}
    (hc : r.clients j = some c) :
    (r.getMut cid).1.clients j = some c := by
  rw [getMut_fst]
  by_cases h : j = cid
  · subst h
    rw [set_clients_self, hc]
    simp
  · rw [set_clients_ne _ h, hc]

theorem handle_registry_shape (e : Exchange) (t : Transaction) :
    ((e.handle t).2).registry = e.registry ∨
    ((e.handle t).2).registry = (e.registry.getMut t.client).1 ∨
    ∃ c₀ c', e.registry.getMut t.client = ((e.registry.getMut t.client).1, .ok c₀) ∧
      ((e.handle t).2).registry = (e.registry.getMut t.client).1.set t.client c' := by
  obtain ⟨tid, cid, ty⟩ := t
  cases ty <;> unfold Exchange.handle <;> dsimp only <;>
    try simp only [insertTx_registry]
  case deposit amount =>
    split
    · left; rfl
    · split
      next r' err heq =>
        right; left
        have h1 : r' = _ := (congrArg Prod.fst heq).symm
        dsimp only
        rw [h1]
      next r' c heq =>
        right; right
        have h1 : (e.registry.getMut cid).1 = r' := congrArg Prod.fst heq
        exact ⟨c, _, by rw [h1]; exact heq, by dsimp only; rw [h1]⟩
  case withdraw amount =>
    split
    · left; rfl
    · split
      next r' err heq =>
        right; left
        have h1 : r' = _ := (congrArg Prod.fst heq).symm
        dsimp only
        rw [h1]
      next r' c heq =>
        have h1 : (e.registry.getMut cid).1 = r' := congrArg Prod.fst heq
        split
        · right; left
          dsimp only
          rw [h1]
        · right; right
          exact ⟨c, _, by rw [h1]; exact heq, by dsimp only; rw [h1]⟩
  case dispute =>
    split
    · left; rfl
    next prevTx heq0 =>
      split
      next r' err heq =>
        right; left
        have h1 : r' = _ := (congrArg Prod.fst heq).symm
        dsimp only
        rw [h1]
      next r' c heq =>
        have h1 : (e.registry.getMut cid).1 = r' := congrArg Prod.fst heq
        split
        · right; right
          exact ⟨c, _, by rw [h1]; exact heq, by dsimp only; rw [h1]⟩
        · right; right
          exact ⟨c, _, by rw [h1]; exact heq, by dsimp only; rw [h1]⟩
        · right; left
          dsimp only
          rw [h1]
  case resolve =>
    split
    · left; rfl
    next prevTx heq0 =>
      split
      next amount heqa =>
        split
        next r' err heq =>
          right; left
          have h1 : r' = _ := (congrArg Prod.fst heq).symm
          dsimp only
          rw [h1]
        next r' c heq =>
          have h1 : (e.registry.getMut cid).1 = r' := congrArg Prod.fst heq
          right; right
          exact ⟨c, _, by rw [h1]; exact heq, by dsimp only; rw [h1]⟩
      next => left; rfl
  case chargeback =>
    split
    · left; rfl
    next prevTx heq0 =>
      split
      next amount heqa =>
        split
        next r' err heq =>
          right; left
          have h1 : r' = _ := (congrArg Prod.fst heq).symm
          dsimp only
          rw [h1]
        next r' c heq =>
          have h1 : (e.registry.getMut cid).1 = r' := congrArg Prod.fst heq
          right; right
          exact ⟨c, _, by rw [h1]; exact heq, by dsimp only; rw [h1]⟩
      next => left; rfl

theorem locked_frozen_step (e : Exchange) (t : Transaction) (id : ClientID) (c : Client)
    (hc : e.registry.clients id = some c) (hl : c.locked = true) :
    ((e.handle t).2).registry.clients id = some c := by
  rcases handle_registry_shape e t with h | h | ⟨c₀, c', hok, h⟩
  · rw [h, hc]
  · rw [h]
    exact getMut_fst_clients _ _ _ hc
  · rw [h]
    by_cases hcd : id = t.client
    · subst hcd
      obtain ⟨h1, h2, _⟩ := getMut_eq_ok hok
      rw [hc] at h1
      simp only [Option.getD_some] at h1
      rw [h1, hl] at h2
      cases h2
    · rw [set_clients_ne _ hcd]
      exact getMut_fst_clients _ _ _ hc

theorem dispute_step (e : Exchange) (tid : TransactionID) (cid : ClientID)
    (p : Transaction) (a : Amount) (c : Client)
    (hp : e.transactions tid = some p) (hpt : p.ttype = .deposit a)
    (hc : e.registry.clients cid = some c) (hl : c.locked = false) :
    e.handle ⟨tid, cid, .dispute⟩ =
      (.ok (), { e with registry := ((e.registry.set cid c).set cid
        { c with available := c.available - a, held := c.held + a }) }) := by
  unfold Exchange.handle Exchange.getTx
  dsimp only
  rw [hp]
  dsimp only
  simp only [Registry.getMut, hc, Option.getD_some, hl]
  rw [hpt]
  simp [hl]

theorem resolve_step (e : Exchange) (tid : TransactionID) (cid : ClientID)
    (p : Transaction) (a : Amount) (c : Client)
    (hp : e.transactions tid = some p) (hpa : p.amount = some a)
    (hc : e.registry.clients cid = some c) (hl : c.locked = false) :
    e.handle ⟨tid, cid, .resolve⟩ =
      (.ok (), { e with registry := ((e.registry.set cid c).set cid
        { c with held := c.held - a, available := c.available + a }) }) := by
  unfold Exchange.handle Exchange.getTx
  dsimp only
  rw [hp]
  dsimp only
  rw [hpa]
  dsimp only
  simp only [Registry.getMut, hc, Option.getD_some, hl]
  simp [hl]

theorem deposit_ok_state (e : Exchange) (tid : TransactionID) (cid : ClientID)
    (n : Amount) (e1 : Exchange)
    (h : e.handle ⟨tid, cid, .deposit n⟩ = (.ok (), e1)) :
    e1.transactions tid = some ⟨tid, cid, .deposit n⟩ ∧
    ∃ c1 : Client, e1.registry.clients cid = some c1 ∧ c1.locked = false := by
  unfold Exchange.handle at h
  dsimp only at h
  split at h
  · cases h
  · split at h
    next r' err heq => cases h
    next r' c heq =>
      obtain ⟨hc, hl, hr'⟩ := getMut_eq_ok heq
      injection h with h1 h2
      subst h2
      constructor
      · show (e.insertTx ⟨tid, cid, .deposit n⟩).transactions tid = _
        unfold Exchange.insertTx
        simp
      · exact ⟨_, set_clients_self _ _ _, hl⟩

theorem handleAll_nil (e : Exchange) : e.handleAll [] = e := rfl

theorem handleAll_cons (e : Exchange) (t : Transaction) (ts : List Transaction) :
    e.handleAll (t :: ts) = ((e.handle t).2).handleAll ts := rfl

theorem redispute_aux (k : Nat) :
    ∀ (e : Exchange) (tid : TransactionID) (cid : ClientID) (p : Transaction)
      (a : Amount) (c : Client),
      e.transactions tid = some p → p.ttype = .deposit a →
      e.registry.clients cid = some c → c.locked = false →
      (e.handleAll (List.replicate k ⟨tid, cid, .dispute⟩)).transactions tid = some p ∧
      (e.handleAll (List.replicate k ⟨tid, cid, .dispute⟩)).registry.clients cid =
        some { c with available := c.available - (k : Amount) * a,
                      held := c.held + (k : Amount) * a } := by
  induction k with
  | zero =>
    intro e tid cid p a c hp hpt hc hl
    refine ⟨hp, ?_⟩
    rw [List.replicate_zero, handleAll_nil, hc]
    congr 1
    cases c
    simp
  | succ k ih =>
    intro e tid cid p a c hp hpt hc hl
    have hd := dispute_step e tid cid p a c hp hpt hc hl
    rw [List.replicate_succ, handleAll_cons, hd]
    dsimp only
    obtain ⟨ihT, ihC⟩ := ih
      { e with registry := ((e.registry.set cid c).set cid
          { c with available := c.available - a, held := c.held + a }) }
      tid cid p a
      { c with available := c.available - a, held := c.held + a }
      hp hpt (set_clients_self _ _ _) hl
    refine ⟨ihT, ?_⟩
    rw [ihC]
    congr 1
    cases c
    simp only
    congr 1 <;> push_cast <;> ring

/-- C1: the claim says a rejected `handle` call leaves the Transaction
Log exactly as it was, the only tolerated side effect being the
zero-balance registration of the client of a failed Withdraw.  The
code violates this: `Withdraw` inserts the transaction into the log
*before* the insufficient-funds check, so the rejected withdrawal of
1000 from the empty exchange is afterwards present in the log. -/
theorem c1_rejected_withdraw_enters_log :
    (Exchange.new.handle ⟨1, 1, .withdraw 1000⟩).1 =
      .error (.invalidTransaction ⟨1, 1, .withdraw 1000⟩
        "Insufficient funds available for transaction. Available: 0, required: 1000") ∧
    Exchange.new.transactions 1 = none ∧
    (Exchange.new.handle ⟨1, 1, .withdraw 1000⟩).2.transactions 1 =
      some ⟨1, 1, .withdraw 1000⟩ := by
  decide

/-- C2: the claim says every log entry in a reachable state comes from
a call that returned Ok.  Counter-run: after client 1 is locked by a
chargeback, a further Deposit with the fresh id 2 is rejected with
`Locked`, yet that rejected deposit sits in the log of the resulting
state, which is reachable from the empty exchange. -/
theorem c2_log_entry_from_rejected_call :
    ((Exchange.new.handleAll
        [⟨1, 1, .deposit 100⟩, ⟨1, 1, .dispute⟩, ⟨1, 1, .chargeback⟩]).handle
        ⟨2, 1, .deposit 50⟩).1 =
      .error (.locked { id := 1, available := 0, held := 0, total := 0, locked := true }) ∧
    ((Exchange.new.handleAll
        [⟨1, 1, .deposit 100⟩, ⟨1, 1, .dispute⟩, ⟨1, 1, .chargeback⟩]).handle
        ⟨2, 1, .deposit 50⟩).2.transactions 2 = some ⟨2, 1, .deposit 50⟩ := by
  decide

/-- C3: the claim says a Dispute on the id of a rejected
Deposit/Withdraw always yields the id-not-in-Log rejection.  In the
code a rejected Withdraw has already been inserted into the log, so
the subsequent Dispute on its id is *accepted* and drives the client
to a negative available balance instead of being rejected. -/
theorem c3_dispute_on_rejected_withdraw_accepted :
    (Exchange.new.handle ⟨7, 2, .withdraw 300⟩).1 ≠ .ok () ∧
    ((Exchange.new.handle ⟨7, 2, .withdraw 300⟩).2.handle ⟨7, 2, .dispute⟩).1 = .ok () ∧
    ((Exchange.new.handle ⟨7, 2, .withdraw 300⟩).2.handle ⟨7, 2, .dispute⟩).2.registry.clients 2 =
      some { id := 2, available := -300, held := 300, total := 0, locked := false } := by
  decide

/-- C4: in every exchange state reachable from the empty exchange by
any sequence of `handle` calls (accepted or rejected), every client
record satisfies `total = available + held` exactly. -/
theorem c4_total_eq_available_add_held (ts : List Transaction) (id : ClientID) (c : Client)
    (h : (Exchange.new.handleAll ts).registry.clients id = some c) :
    c.total = c.available + c.held := by
  refine registryInv_handleAll ts ?_ id c h
  intro j c' hj
  cases hj

/-- Witness for C4: the run consisting of one deposit of 5. -/
theorem c4_total_eq_available_add_held_witness :
    (Exchange.new.handleAll [⟨1, 1, .deposit 5⟩]).registry.clients 1 =
      some { id := 1, available := 5, held := 0, total := 5, locked := false } ∧
    ({ id := 1, available := 5, held := 0, total := 5, locked := false } : Client).total =
      ({ id := 1, available := 5, held := 0, total := 5, locked := false } : Client).available +
        ({ id := 1, available := 5, held := 0, total := 5, locked := false } : Client).held :=
  ⟨by decide,
   c4_total_eq_available_add_held [⟨1, 1, .deposit 5⟩] 1
     { id := 1, available := 5, held := 0, total := 5, locked := false } (by decide)⟩

/-- C5: once a client record is locked, any further sequence of
`handle` calls leaves that whole record (balances and flag included)
unchanged; in particular `locked` is never reset to false and no
balance field ever changes again. -/
theorem c5_locked_client_frozen (e : Exchange) (ts : List Transaction) (id : ClientID)
    (c : Client) (hc : e.registry.clients id = some c) (hl : c.locked = true) :
    (e.handleAll ts).registry.clients id = some c := by
  induction ts generalizing e with
  | nil => exact hc
  | cons t ts ih => exact ih _ (locked_frozen_step e t id c hc hl)

/-- Witness for C5: client 1 locked by a chargeback, then hit with a
further deposit and resolve; the record stays identical. -/
theorem c5_locked_client_frozen_witness :
    (Exchange.new.handleAll
        [⟨1, 1, .deposit 100⟩, ⟨1, 1, .dispute⟩, ⟨1, 1, .chargeback⟩]).registry.clients 1 =
      some { id := 1, available := 0, held := 0, total := 0, locked := true } ∧
    ({ id := 1, available := 0, held := 0, total := 0, locked := true } : Client).locked = true ∧
    ((Exchange.new.handleAll
        [⟨1, 1, .deposit 100⟩, ⟨1, 1, .dispute⟩, ⟨1, 1, .chargeback⟩]).handleAll
        [⟨5, 1, .deposit 7⟩, ⟨1, 1, .resolve⟩]).registry.clients 1 =
      some { id := 1, available := 0, held := 0, total := 0, locked := true } :=
  ⟨by decide, rfl,
   c5_locked_client_frozen _ [⟨5, 1, .deposit 7⟩, ⟨1, 1, .resolve⟩] 1
     { id := 1, available := 0, held := 0, total := 0, locked := true } (by decide) rfl⟩

/-- C6: whenever a Deposit of `n` with id `tid` by client `cid` is
accepted and then a Dispute on `tid` followed by a Resolve on `tid`
(both by `cid`) return Ok, the available and held balances of `cid`
after the resolve equal their pre-dispute (post-deposit) values, and
the total balance is unchanged by the dispute and by the resolve. -/
theorem c6_deposit_dispute_resolve_roundtrip (e : Exchange) (tid : TransactionID)
    (cid : ClientID) (n : Amount) (e1 e2 e3 : Exchange)
    (h1 : e.handle ⟨tid, cid, .deposit n⟩ = (.ok (), e1))
    (h2 : e1.handle ⟨tid, cid, .dispute⟩ = (.ok (), e2))
    (h3 : e2.handle ⟨tid, cid, .resolve⟩ = (.ok (), e3)) :
    (e1.registry.clients cid).isSome = true ∧
    (e2.registry.clients cid).map Client.total = (e1.registry.clients cid).map Client.total ∧
    (e3.registry.clients cid).map Client.total = (e1.registry.clients cid).map Client.total ∧
    (e3.registry.clients cid).map Client.available =
      (e1.registry.clients cid).map Client.available ∧
    (e3.registry.clients cid).map Client.held = (e1.registry.clients cid).map Client.held := by
  obtain ⟨hp1, c1, hc1, hl1⟩ := deposit_ok_state e tid cid n e1 h1
  have hd := dispute_step e1 tid cid ⟨tid, cid, .deposit n⟩ n c1 hp1 rfl hc1 hl1
  rw [hd] at h2
  injection h2 with _ h2
  subst h2
  have hp2 : e1.transactions tid = some (⟨tid, cid, .deposit n⟩ : Transaction) := hp1
  have hr := resolve_step
    { e1 with registry := ((e1.registry.set cid c1).set cid
        { c1 with available := c1.available - n, held := c1.held + n }) }
    tid cid ⟨tid, cid, .deposit n⟩ n
    { c1 with available := c1.available - n, held := c1.held + n }
    hp2 rfl (set_clients_self _ _ _) hl1
  rw [hr] at h3
  injection h3 with _ h3
  subst h3
  refine ⟨by rw [hc1]; rfl, ?_, ?_, ?_, ?_⟩ <;>
    simp [set_clients_self, hc1]

/-- Witness for C6: deposit 7, dispute it, resolve it, all for client 1. -/
theorem c6_deposit_dispute_resolve_roundtrip_witness :
    Exchange.new.handle ⟨1, 1, .deposit 7⟩ = (.ok (), c6Run1) ∧
    c6Run1.handle ⟨1, 1, .dispute⟩ = (.ok (), c6Run2) ∧
    c6Run2.handle ⟨1, 1, .resolve⟩ = (.ok (), c6Run3) ∧
    ((c6Run1.registry.clients 1).isSome = true ∧
      (c6Run2.registry.clients 1).map Client.total =
        (c6Run1.registry.clients 1).map Client.total ∧
      (c6Run3.registry.clients 1).map Client.total =
        (c6Run1.registry.clients 1).map Client.total ∧
      (c6Run3.registry.clients 1).map Client.available =
        (c6Run1.registry.clients 1).map Client.available ∧
      (c6Run3.registry.clients 1).map Client.held =
        (c6Run1.registry.clients 1).map Client.held) :=
  ⟨rfl, rfl, rfl,
   c6_deposit_dispute_resolve_roundtrip Exchange.new 1 1 7 c6Run1 c6Run2 c6Run3 rfl rfl rfl⟩

/-- C7: a Dispute whose transaction id is not in the log is rejected
with the id-not-in-Log error, and the whole state (registry included)
is returned untouched: the client named on the dispute is not created,
because the log lookup precedes any registry access. -/
theorem c7_unknown_dispute_rejected_no_mutation (e : Exchange) (tid : TransactionID)
    (cid : ClientID) (h : e.transactions tid = none) :
    e.handle ⟨tid, cid, .dispute⟩ =
      (.error (.invalidTransaction ⟨tid, cid, .dispute⟩
        "The given transaction ID DOES NOT exist"), e) := by
  unfold Exchange.handle Exchange.getTx
  dsimp only
  rw [h]

/-- Witness for C7: Dispute(id 99, client 1) on the empty exchange. -/
theorem c7_unknown_dispute_rejected_no_mutation_witness :
    Exchange.new.transactions 99 = none ∧
    Exchange.new.handle ⟨99, 1, .dispute⟩ =
      (.error (.invalidTransaction ⟨99, 1, .dispute⟩
        "The given transaction ID DOES NOT exist"), Exchange.new) :=
  ⟨rfl, c7_unknown_dispute_rejected_no_mutation Exchange.new 99 1 rfl⟩

/-- C8: `handle` is a total function: on every state and every
well-typed transaction (any amount, extreme or negative, included) it
returns either Ok or one of the typed `ExchangeError` values; there is
no other outcome. -/
theorem c8_handle_total_typed_result (e : Exchange) (t : Transaction) :
    (e.handle t).1 = .ok () ∨ ∃ err : ExchangeError, (e.handle t).1 = .error err := by
  cases h : (e.handle t).1 with
  | ok u =>
    left
    cases u
    rfl
  | error err =>
    right
    exact ⟨err, rfl⟩

/-- C9: a run of three calls that all return Ok (deposit 10, withdraw
5, dispute the deposit) leaves client 1 with available = -5 < 0: the
dispute branch subtracts the disputed amount from available with no
lower-bound check. -/
theorem c9_negative_available_reachable :
    (Exchange.new.handle ⟨1, 1, .deposit 10⟩).1 = .ok () ∧
    ((Exchange.new.handle ⟨1, 1, .deposit 10⟩).2.handle ⟨2, 1, .withdraw 5⟩).1 = .ok () ∧
    (((Exchange.new.handle ⟨1, 1, .deposit 10⟩).2.handle ⟨2, 1, .withdraw 5⟩).2.handle
        ⟨1, 1, .dispute⟩).1 = .ok () ∧
    (((Exchange.new.handle ⟨1, 1, .deposit 10⟩).2.handle ⟨2, 1, .withdraw 5⟩).2.handle
        ⟨1, 1, .dispute⟩).2.registry.clients 1 =
      some { id := 1, available := -5, held := 10, total := 5, locked := false } ∧
    (-5 : Amount) < 0 := by
  decide

/-- C10: a log entry holding a Deposit of `a` can be disputed over and
over: with the client unlocked, after `k` disputes of that id the next
one still returns Ok, and held has grown by `k * a` while available
has shrunk by `k * a`; no per-transaction dispute status is tracked. -/
theorem c10_redispute_accumulates (e : Exchange) (tid : TransactionID) (cid : ClientID)
    (p : Transaction) (a : Amount) (c : Client) (k : Nat)
    (hp : e.transactions tid = some p) (hpt : p.ttype = .deposit a)
    (hc : e.registry.clients cid = some c) (hl : c.locked = false) :
    ((e.handleAll (List.replicate k ⟨tid, cid, .dispute⟩)).handle ⟨tid, cid, .dispute⟩).1 =
      .ok () ∧
    ((e.handleAll (List.replicate k ⟨tid, cid, .dispute⟩)).registry.clients cid).map
        Client.held = some (c.held + (k : Amount) * a) ∧
    ((e.handleAll (List.replicate k ⟨tid, cid, .dispute⟩)).registry.clients cid).map
        Client.available = some (c.available - (k : Amount) * a) := by
  obtain ⟨hT, hC⟩ := redispute_aux k e tid cid p a c hp hpt hc hl
  have hd := dispute_step _ tid cid p a _ hT hpt hC hl
  refine ⟨?_, ?_, ?_⟩
  · rw [hd]
  · rw [hC]
    rfl
  · rw [hC]
    rfl

/-- Witness for C10: deposit 10 for client 1, then two disputes of it. -/
theorem c10_redispute_accumulates_witness :
    c10Run.transactions 1 = some ⟨1, 1, .deposit 10⟩ ∧
    (⟨1, 1, .deposit 10⟩ : Transaction).ttype = .deposit 10 ∧
    c10Run.registry.clients 1 =
      some { id := 1, available := 10, held := 0, total := 10, locked := false } ∧
    ({ id := 1, available := 10, held := 0, total := 10, locked := false } : Client).locked =
      false ∧
    (((c10Run.handleAll (List.replicate 2 ⟨1, 1, .dispute⟩)).handle ⟨1, 1, .dispute⟩).1 =
        .ok () ∧
      ((c10Run.handleAll (List.replicate 2 ⟨1, 1, .dispute⟩)).registry.clients 1).map
          Client.held = some 20 ∧
      ((c10Run.handleAll (List.replicate 2 ⟨1, 1, .dispute⟩)).registry.clients 1).map
          Client.available = some (-10)) :=
  ⟨by decide, rfl, by decide, rfl,
   c10_redispute_accumulates c10Run 1 1 ⟨1, 1, .deposit 10⟩ 10
     { id := 1, available := 10, held := 0, total := 10, locked := false } 2
     (by decide) rfl (by decide) rfl⟩
